import Mathlib

/-!
Verification of the checkpoint-conversion and pretokenization logic of the
`epfl-megatron` repository against its natural-language specification.

The development shallowly embeds the relevant Python code:

* `weights2megatron/weights2megatron.py`: `falcon_to_megatron`,
  `llama_to_megatron` and the `rearrange_qkv` / `permute` helpers.
  A 2-d weight tensor is modelled as its list of rows (`List ρ` for an
  arbitrary row type `ρ`); `torch.split(w, n, dim=0)` becomes `splitChunks n`
  and `torch.concat` on lists of row-blocks becomes `List.flatten` /
  `List.append`.  Python `dict`s built by inserting fresh keys in a fixed
  order become association lists queried with `List.lookup`.
  The external `permute_qkv` function (its module is not part of the sources
  considered here) is a parameter of the embedding.

* `oa/pretokenize.py`: `format_pairs`, `format_sft_entry`,
  `format_conversation`, `TokenStats` and the main loop of
  `tokenize_dataset`.  The tokenizer is a parameter `enc : String → List Nat`.
  Python exceptions (`IndexError`, `AssertionError`, `ZeroDivisionError`)
  are modelled with `Except`.

* `tests/test_llama_weights.py`: the post-processing of the delegated
  verification run in `verify_correctness` (regex extraction of the
  `max=<float>` values and the tolerance assertion), with exact rational
  arithmetic in place of Python floats.
-/

/-! ## Generic list helpers -/

/-- `torch.split(w, n, dim=0)`: cut a list of rows into consecutive chunks of
`n` rows each (the final chunk may be shorter).  For `n = 0` torch raises an
error on nonempty input; we return `[]` there, a case never reached under the
shape hypotheses of the theorems below. -/
def splitChunks (n : Nat) (l : List α) : List (List α) :=
  if hn : n = 0 then []
  else
    match l with
    | [] => []
    | x :: xs => ((x :: xs).take n) :: splitChunks n ((x :: xs).drop n)
termination_by l.length
decreasing_by
  simp only [List.length_drop, List.length_cons]
  omega

theorem splitChunks_nil (n : Nat) : splitChunks n ([] : List α) = [] := by
  unfold splitChunks
  split <;> rfl

theorem splitChunks_cons (n : Nat) (hn : n ≠ 0) (x : α) (xs : List α) :
    splitChunks n (x :: xs) =
      ((x :: xs).take n) :: splitChunks n ((x :: xs).drop n) := by
  conv_lhs => unfold splitChunks
  simp [hn]

/-- Splitting a concatenation of blocks that all have length `n` recovers the
blocks. -/
theorem splitChunks_join (n : Nat) (hn : 0 < n) :
    ∀ bs : List (List α), (∀ b ∈ bs, b.length = n) →
      splitChunks n bs.flatten = bs := by
  intro bs
  induction bs with
  | nil => intro _; simpa using splitChunks_nil n
  | cons b bs ih =>
    intro hlen
    have hb : b.length = n := hlen b (by simp)
    have hbs : ∀ b' ∈ bs, b'.length = n := fun b' hb' => hlen b' (by simp [hb'])
    have hbne : b ≠ [] := by
      intro h
      rw [h] at hb
      simp at hb
      omega
    obtain ⟨x, xs, hx⟩ := List.exists_cons_of_ne_nil hbne
    have hcons : (b :: bs).flatten = x :: (xs ++ bs.flatten) := by
      simp [hx]
    rw [hcons, splitChunks_cons n (by omega)]
    have htake : (x :: (xs ++ bs.flatten)).take n = b := by
      have : (x :: (xs ++ bs.flatten)) = b ++ bs.flatten := by simp [hx]
      rw [this, ← hb, List.take_left]
    have hdrop : (x :: (xs ++ bs.flatten)).drop n = bs.flatten := by
      have : (x :: (xs ++ bs.flatten)) = b ++ bs.flatten := by simp [hx]
      rw [this, ← hb, List.drop_left]
    rw [htake, hdrop, ih hbs]

/-- Joining the chunks gives back the original list (for positive chunk
size). -/
theorem join_splitChunks (n : Nat) (hn : 0 < n) :
    ∀ l : List α, (splitChunks n l).flatten = l := by
  intro l
  generalize hl : l.length = len
  induction len using Nat.strong_induction_on generalizing l with
  | _ len ih =>
    match l with
    | [] => simp [splitChunks_nil]
    | x :: xs =>
      rw [splitChunks_cons n (by omega)]
      have hlt : ((x :: xs).drop n).length < (x :: xs).length := by
        simp only [List.length_drop, List.length_cons]
        omega
      have := ih ((x :: xs).drop n).length (hl ▸ hlt) ((x :: xs).drop n) rfl
      simp [this]

/-! Association-list lookup helpers (Python `dict` reads). -/

theorem lookup_cons_self {κ τ : Type} [BEq κ] [LawfulBEq κ] (k : κ) (v : τ)
    (l : List (κ × τ)) : List.lookup k ((k, v) :: l) = some v := by
  simp [List.lookup]

theorem lookup_cons_ne {κ τ : Type} [BEq κ] [LawfulBEq κ] {k k' : κ} (v : τ)
    (l : List (κ × τ)) (h : k ≠ k') :
    List.lookup k ((k', v) :: l) = List.lookup k l := by
  simp [List.lookup, beq_eq_false_iff_ne.2 h]

theorem lookup_append_right {κ τ : Type} [BEq κ] [LawfulBEq κ] {k : κ}
    (l1 l2 : List (κ × τ)) (h : ∀ p ∈ l1, p.1 ≠ k) :
    List.lookup k (l1 ++ l2) = List.lookup k l2 := by
  induction l1 with
  | nil => simp
  | cons p l ih =>
    have hp : p.1 ≠ k := h p (by simp)
    have hk : k ≠ p.1 := fun hh => hp hh.symm
    calc List.lookup k ((p :: l) ++ l2) = List.lookup k (p :: (l ++ l2)) := by simp
    _ = List.lookup k (l ++ l2) := by
        obtain ⟨p1, p2⟩ := p
        exact lookup_cons_ne p2 (l ++ l2) hk
    _ = List.lookup k l2 := ih (fun q hq => h q (by simp [hq]))

theorem lookup_append_left {κ τ : Type} [BEq κ] [LawfulBEq κ] {k : κ} {v : τ}
    (l1 l2 : List (κ × τ)) (h : List.lookup k l1 = some v) :
    List.lookup k (l1 ++ l2) = some v := by
  induction l1 with
  | nil => simp at h
  | cons p l ih =>
    obtain ⟨p1, p2⟩ := p
    by_cases hk : k = p1
    · subst hk
      rw [lookup_cons_self] at h
      simpa [List.cons_append, lookup_cons_self] using h
    · rw [lookup_cons_ne p2 l hk] at h
      simpa [List.cons_append, lookup_cons_ne p2 (l ++ l2) hk] using ih h

/-- Looking up a key that belongs to exactly one block of a
`(List.range n).flatMap f` construction. -/
theorem lookup_bind_range {τ : Type} {k : String} {v : τ}
    (f : Nat → List (String × τ)) (n L : Nat) (hL : L < n)
    (hin : List.lookup k (f L) = some v)
    (hout : ∀ M, M < n → M ≠ L → ∀ p ∈ f M, p.1 ≠ k) :
    List.lookup k ((List.range n).flatMap f) = some v := by
  induction n with
  | zero => omega
  | succ m ih =>
    rw [List.range_succ, List.flatMap_append]
    by_cases hLm : L = m
    · subst hLm
      refine lookup_append_right _ _ ?_ |>.trans ?_
      · intro p hp
        simp only [List.mem_flatMap, List.mem_range] at hp
        obtain ⟨M, hM, hpM⟩ := hp
        exact hout M (by omega) (by omega) p hpM
      · simp only [List.flatMap_cons, List.flatMap_nil, List.append_nil]
        exact hin
    · have hL' : L < m := by omega
      have := ih hL' (fun M hM hne => hout M (by omega) hne)
      refine (lookup_append_left _ _ this)

/-! ## String keys of the form `f"layers.{layer}" + suffix` -/

/-- The Python f-string `f"layers.{layer}"` (`prefix1` in the source). -/
def layerPref (L : Nat) : String := "layers." ++ Nat.repr L

theorem layerPref_data (L : Nat) (s : String) :
    (layerPref L ++ s).data =
      'l' :: 'a' :: 'y' :: 'e' :: 'r' :: 's' :: '.' ::
        ((Nat.repr L).data ++ s.data) := by
  simp [layerPref, String.data_append]

/-- Decimal representations of the layer indices in play (every model in the
repository has at most 80 layers) consist of digit characters only. -/
theorem repr_all_digits_80 :
    ∀ L : Fin 80, ((Nat.repr L.val).data.all Char.isDigit) = true := by decide

set_option maxHeartbeats 4000000 in
set_option maxRecDepth 100000 in
/-- Decimal representation is injective on the layer indices in play. -/
theorem repr_inj_80 :
    ∀ a : Fin 80, ∀ b : Fin 80, Nat.repr a.val = Nat.repr b.val → a = b := by
  decide

/-- Cancellation for concatenations `digits ++ '.' ++ rest`: the digit block
and the rest are both determined (a digit is never `'.'`). -/
theorem digits_dot_cancel :
    ∀ (a b s t : List Char), (∀ c ∈ a, c.isDigit) → (∀ c ∈ b, c.isDigit) →
      a ++ '.' :: s = b ++ '.' :: t → a = b ∧ s = t := by
  intro a
  induction a with
  | nil =>
    intro b s t _ hb h
    cases b with
    | nil => simpa using h
    | cons d bs =>
      exfalso
      simp only [List.nil_append, List.cons_append, List.cons.injEq] at h
      have : ('.' : Char).isDigit := h.1 ▸ hb d (by simp)
      simp at this
  | cons c as ih =>
    intro b s t ha hb h
    cases b with
    | nil =>
      exfalso
      simp only [List.nil_append, List.cons_append, List.cons.injEq] at h
      have : ('.' : Char).isDigit := h.1 ▸ ha c (by simp)
      simp at this
    | cons d bs =>
      simp only [List.cons_append, List.cons.injEq] at h
      obtain ⟨hcd, h'⟩ := h
      have := ih bs s t (fun x hx => ha x (by simp [hx]))
        (fun x hx => hb x (by simp [hx])) h'
      exact ⟨by simp [hcd, this.1], this.2⟩

/-- Two layer-indexed keys agree exactly when the layer and the suffix agree
(for layers below 80 and suffixes that start with `'.'`). -/
theorem layerKey_eq_iff {L M : Nat} (hL : L < 80) (hM : M < 80) (s t : String)
    (hs : ∃ s', s.data = '.' :: s') (ht : ∃ t', t.data = '.' :: t') :
    layerPref L ++ s = layerPref M ++ t ↔ L = M ∧ s = t := by
  constructor
  · intro h
    obtain ⟨s', hs'⟩ := hs
    obtain ⟨t', ht'⟩ := ht
    have hdata := congrArg String.data h
    rw [layerPref_data, layerPref_data, hs', ht'] at hdata
    simp only [List.cons.injEq, true_and] at hdata
    have hdig1 : ∀ c ∈ (Nat.repr L).data, c.isDigit := by
      have := repr_all_digits_80 ⟨L, hL⟩
      simpa [List.all_eq_true] using this
    have hdig2 : ∀ c ∈ (Nat.repr M).data, c.isDigit := by
      have := repr_all_digits_80 ⟨M, hM⟩
      simpa [List.all_eq_true] using this
    have := digits_dot_cancel _ _ _ _ hdig1 hdig2 hdata
    have hLM : L = M := by
      have hrepr : Nat.repr L = Nat.repr M := String.ext this.1
      have := repr_inj_80 ⟨L, hL⟩ ⟨M, hM⟩ hrepr
      simpa using congrArg Fin.val this
    refine ⟨hLM, String.ext ?_⟩
    rw [hs', ht', this.2]
  · rintro ⟨rfl, rfl⟩
    rfl

theorem layerKey_ne_of_layer_ne {L M : Nat} (hL : L < 80) (hM : M < 80)
    {s t : String} (hs : ∃ s', s.data = '.' :: s')
    (ht : ∃ t', t.data = '.' :: t') (hne : L ≠ M) :
    layerPref L ++ s ≠ layerPref M ++ t := by
  intro h
  exact hne ((layerKey_eq_iff hL hM s t hs ht).1 h).1

theorem layerKey_ne_of_suffix_ne (L : Nat) {s t : String} (hne : s ≠ t) :
    layerPref L ++ s ≠ layerPref L ++ t := by
  intro h
  have := congrArg String.data h
  rw [layerPref_data, layerPref_data] at this
  simp only [List.cons.injEq, true_and] at this
  exact hne (String.ext (List.append_cancel_left this))

/-- A layer-indexed key never collides with a key whose first character is
not `'l'`. -/
theorem layerKey_ne_plain (L : Nat) (s k : String)
    (hk : k.data.head? ≠ some 'l') : layerPref L ++ s ≠ k := by
  intro h
  apply hk
  rw [← h]
  rw [layerPref_data]
  rfl

/-! ## `weights2megatron/weights2megatron.py` -/

/-- `llama_s2layer` (size → number of layers); sizes outside the table raise
`KeyError` in Python, theorems restrict `size` to `llamaSizes`. -/
def llama_s2layer (s : Nat) : Nat :=
  if s = 7 then 32 else if s = 13 then 40 else if s = 30 then 60
  else if s = 65 then 80 else if s = 70 then 80 else 0

/-- `llama_s2heads` (size → number of attention heads). -/
def llama_s2heads (s : Nat) : Nat :=
  if s = 7 then 32 else if s = 13 then 40 else if s = 30 then 52
  else if s = 65 then 64 else if s = 70 then 64 else 0

/-- `llama_s2dense` (size → ffn hidden size). -/
def llama_s2dense (s : Nat) : Nat :=
  if s = 7 then 11008 else if s = 13 then 13824 else if s = 30 then 17920
  else if s = 65 then 22016 else if s = 70 then 28672 else 0

/-- `llama_s2hidden` (size → hidden size). -/
def llama_s2hidden (s : Nat) : Nat :=
  if s = 7 then 4096 else if s = 13 then 5120 else if s = 30 then 6656
  else if s = 65 then 8192 else if s = 70 then 8192 else 0

/-- The key set of the four tables above. -/
def llamaSizes : List Nat := [7, 13, 30, 65, 70]

/-- `n_kv_heads = n_heads if version == 1 or size <= 13 else 8`
(line 106 of `weights2megatron.py`). -/
def llama_n_kv_heads (size version : Nat) : Nat :=
  if version = 1 ∨ size ≤ 13 then llama_s2heads size else 8

/-- `n_hidden_per_head = hidden//n_heads` (line 105). -/
def llama_n_hidden_per_head (size : Nat) : Nat :=
  llama_s2hidden size / llama_s2heads size

/-- The inner helper `rearrange_qkv(wq, wk, wv)` of `llama_to_megatron`
(lines 87–99): split each projection into row blocks of `n_hidden_per_head`
rows, interleave them per kv head, concatenate and apply `permute`.
The Python `assert`s on the number of blocks hold under the shape hypotheses
of the theorems below; out-of-range indexing is modelled with `getD`. -/
def rearrange_qkv {ρ : Type} (permute : List ρ → List ρ)
    (n_heads n_kv_heads n_hidden_per_head : Nat)
    (wq wk wv : List ρ) : List ρ :=
  let wqs := splitChunks n_hidden_per_head wq
  let wks := splitChunks n_hidden_per_head wk
  let wvs := splitChunks n_hidden_per_head wv
  let n_qs_per_kv := n_heads / n_kv_heads
  let w_qkv := (List.range n_kv_heads).flatMap (fun i =>
    ((List.range n_qs_per_kv).map (fun j => wqs.getD (i * n_qs_per_kv + j) []))
      ++ [wks.getD i [], wvs.getD i []])
  permute w_qkv.flatten

/-- Result of `llama_to_megatron`: the dict
`{"embedding": …, "transformer": …, "lm_head": …}`. -/
structure LlamaOut (ρ : Type) where
  embedding : List (String × List ρ)
  transformer : List (String × List ρ)
  lm_head : List ρ

/-- The entries one iteration of the conversion loop of `llama_to_megatron`
(lines 114–135) inserts into `transformer`, in insertion order.  `pqkv` is
the external `permute_qkv` function, applied (by the `permute` helper of
lines 82–85) only when `source == "hf"`. -/
def llamaLayerEntries {ρ : Type} (pqkv : Nat → Nat → Nat → List ρ → List ρ)
    (weights : String → List ρ) (size : Nat) (source : String) (version : Nat)
    (L : Nat) : List (String × List ρ) :=
  let hidden := llama_s2hidden size
  let n_heads := llama_s2heads size
  let n_hidden_per_head := llama_n_hidden_per_head size
  let n_kv_heads := llama_n_kv_heads size version
  let permute : List ρ → List ρ :=
    fun w => if source = "hf" then pqkv hidden n_heads n_kv_heads w else w
  [ (layerPref L ++ ".attention.dense.weight",
     weights (layerPref L ++ ".attention.wo.weight")),
    (layerPref L ++ ".post_attention_layernorm.weight",
     weights (layerPref L ++ ".ffn_norm.weight")),
    (layerPref L ++ ".input_layernorm.weight",
     weights (layerPref L ++ ".attention_norm.weight")),
    (layerPref L ++ ".mlp.dense_4h_to_h.weight",
     weights (layerPref L ++ ".feed_forward.w2.weight")),
    (layerPref L ++ ".mlp.dense_h_to_4h.weight",
     weights (layerPref L ++ ".feed_forward.w3.weight") ++
       weights (layerPref L ++ ".feed_forward.w1.weight")),
    (layerPref L ++ ".attention.query_key_value.weight",
     rearrange_qkv permute n_heads n_kv_heads n_hidden_per_head
       (weights (layerPref L ++ ".attention.wq.weight"))
       (weights (layerPref L ++ ".attention.wk.weight"))
       (weights (layerPref L ++ ".attention.wv.weight"))) ]

/-- `llama_to_megatron` (lines 80–145).  The `del weights[...]` statements
only drop references after the corresponding reads and do not affect the
result.  Dicts are in insertion order; every key is inserted exactly once. -/
def llama_to_megatron {ρ : Type} (pqkv : Nat → Nat → Nat → List ρ → List ρ)
    (weights : String → List ρ) (size : Nat) (source : String)
    (version : Nat) : LlamaOut ρ :=
  { embedding := [("word_embeddings.weight", weights "tok_embeddings.weight")]
    transformer :=
      ("final_layernorm.weight", weights "norm.weight") ::
        (List.range (llama_s2layer size)).flatMap
          (llamaLayerEntries pqkv weights size source version)
    lm_head := weights "output.weight" }

/-- Result of `falcon_to_megatron`: `{"embedding": …, "transformer": …}`. -/
structure FalconOut (ρ : Type) where
  embedding : List (String × List ρ)
  transformer : List (String × List ρ)

/-- The entries one iteration of the conversion loop of `falcon_to_megatron`
(lines 48–76) inserts into `transformer`, in insertion order. -/
def falconLayerEntries {ρ : Type} (pqkv : Nat → Nat → Nat → List ρ → List ρ)
    (weights : String → List ρ) (size : Nat) (L : Nat) :
    List (String × List ρ) :=
  let dim := if size = 7 then 4544 else 8192
  let n_heads := if size = 7 then 71 else 128
  let n_heads_kv := if size = 7 then 1 else 8
  let pre2 := "transformer.h." ++ Nat.repr L
  [ (layerPref L ++ ".mlp.dense_h_to_4h.weight",
     weights (pre2 ++ ".mlp.dense_h_to_4h.weight")),
    (layerPref L ++ ".mlp.dense_4h_to_h.weight",
     weights (pre2 ++ ".mlp.dense_4h_to_h.weight")),
    (layerPref L ++ ".attention.query_key_value.weight",
     pqkv dim n_heads n_heads_kv
       (weights (pre2 ++ ".self_attention.query_key_value.weight"))),
    (layerPref L ++ ".attention.dense.weight",
     weights (pre2 ++ ".self_attention.dense.weight")) ]
  ++ (if size = 7 then
      [ (layerPref L ++ ".input_layernorm.weight",
         weights (pre2 ++ ".input_layernorm.weight")),
        (layerPref L ++ ".input_layernorm.bias",
         weights (pre2 ++ ".input_layernorm.bias")) ]
    else
      [ (layerPref L ++ ".input_layernorm.weight",
         weights (pre2 ++ ".ln_attn.weight")),
        (layerPref L ++ ".mlp_layernorm.weight",
         weights (pre2 ++ ".ln_mlp.weight")),
        (layerPref L ++ ".input_layernorm.bias",
         weights (pre2 ++ ".ln_attn.bias")),
        (layerPref L ++ ".mlp_layernorm.bias",
         weights (pre2 ++ ".ln_mlp.bias")) ])

/-- `n_layer` of `falcon_to_megatron` (lines 29–38). -/
def falcon_n_layer (size : Nat) : Nat := if size = 7 then 32 else 60

/-- `falcon_to_megatron` (lines 23–77).  The `torch.allclose` assertion on
`lm_head.weight` is a float-tolerance check on the inputs and does not
affect the produced entries; it is not modelled. -/
def falcon_to_megatron {ρ : Type} (pqkv : Nat → Nat → Nat → List ρ → List ρ)
    (weights : String → List ρ) (size : Nat) : FalconOut ρ :=
  { embedding :=
      [("word_embeddings.weight", weights "transformer.word_embeddings.weight")]
    transformer :=
      ("final_layernorm.weight", weights "transformer.ln_f.weight") ::
      ("final_layernorm.bias", weights "transformer.ln_f.bias") ::
        (List.range (falcon_n_layer size)).flatMap
          (falconLayerEntries pqkv weights size) }

/-! Lookup reasoning for the generated transformer dicts. -/

/-- The six per-layer key suffixes used by `llama_to_megatron`. -/
def llamaLayerSuffixes : List String :=
  [".attention.dense.weight", ".post_attention_layernorm.weight",
   ".input_layernorm.weight", ".mlp.dense_4h_to_h.weight",
   ".mlp.dense_h_to_4h.weight", ".attention.query_key_value.weight"]

/-- The per-layer key suffixes used by `falcon_to_megatron` (both size
branches together). -/
def falconLayerSuffixes : List String :=
  [".mlp.dense_h_to_4h.weight", ".mlp.dense_4h_to_h.weight",
   ".attention.query_key_value.weight", ".attention.dense.weight",
   ".input_layernorm.weight", ".input_layernorm.bias",
   ".mlp_layernorm.weight", ".mlp_layernorm.bias"]

theorem llamaLayerSuffixes_dot :
    ∀ s ∈ llamaLayerSuffixes, ∃ s', s.data = '.' :: s' := by
  intro s hs
  fin_cases hs <;> exact ⟨_, rfl⟩

theorem falconLayerSuffixes_dot :
    ∀ s ∈ falconLayerSuffixes, ∃ s', s.data = '.' :: s' := by
  intro s hs
  fin_cases hs <;> exact ⟨_, rfl⟩

theorem llamaLayerEntries_keys {ρ : Type}
    (pqkv : Nat → Nat → Nat → List ρ → List ρ) (weights : String → List ρ)
    (size : Nat) (source : String) (version : Nat) (M : Nat) :
    ∀ p ∈ llamaLayerEntries pqkv weights size source version M,
      ∃ s ∈ llamaLayerSuffixes, p.1 = layerPref M ++ s := by
  intro p hp
  simp only [llamaLayerEntries, List.mem_cons, List.not_mem_nil,
    or_false] at hp
  rcases hp with h | h | h | h | h | h <;> subst h <;>
    exact ⟨_, by simp [llamaLayerSuffixes], rfl⟩

theorem falconLayerEntries_keys {ρ : Type}
    (pqkv : Nat → Nat → Nat → List ρ → List ρ) (weights : String → List ρ)
    (size : Nat) (M : Nat) :
    ∀ p ∈ falconLayerEntries pqkv weights size M,
      ∃ s ∈ falconLayerSuffixes, p.1 = layerPref M ++ s := by
  intro p hp
  simp only [falconLayerEntries, List.mem_append] at hp
  rcases hp with h | h
  · simp only [List.mem_cons, List.not_mem_nil, or_false] at h
    rcases h with h | h | h | h <;> subst h <;>
      exact ⟨_, by simp [falconLayerSuffixes], rfl⟩
  · by_cases h7 : size = 7
    · rw [if_pos h7] at h
      simp only [List.mem_cons, List.not_mem_nil, or_false] at h
      rcases h with h | h <;> subst h <;>
        exact ⟨_, by simp [falconLayerSuffixes], rfl⟩
    · rw [if_neg h7] at h
      simp only [List.mem_cons, List.not_mem_nil, or_false] at h
      rcases h with h | h | h | h <;> subst h <;>
        exact ⟨_, by simp [falconLayerSuffixes], rfl⟩

/-- Lookup in the transformer dict of `llama_to_megatron` reduces to lookup
in the entries of the addressed layer. -/
theorem llama_transformer_lookup {ρ : Type}
    (pqkv : Nat → Nat → Nat → List ρ → List ρ) (weights : String → List ρ)
    (size : Nat) (source : String) (version : Nat) {L : Nat}
    (hL : L < llama_s2layer size) {s : String} (hs : s ∈ llamaLayerSuffixes)
    {v : List ρ}
    (hin : List.lookup (layerPref L ++ s)
      (llamaLayerEntries pqkv weights size source version L) = some v) :
    List.lookup (layerPref L ++ s)
      (llama_to_megatron pqkv weights size source version).transformer
      = some v := by
  have h80 : llama_s2layer size ≤ 80 := by
    unfold llama_s2layer
    split_ifs <;> omega
  simp only [llama_to_megatron]
  rw [lookup_cons_ne _ _ (layerKey_ne_plain L s _ (by decide))]
  refine lookup_bind_range _ _ L hL hin ?_
  intro M hM hMne p hp
  obtain ⟨t, ht, hpt⟩ :=
    llamaLayerEntries_keys pqkv weights size source version M p hp
  rw [hpt]
  exact layerKey_ne_of_layer_ne (by omega) (by omega)
    (llamaLayerSuffixes_dot t ht) (llamaLayerSuffixes_dot s hs) hMne

/-- Lookup in the transformer dict of `falcon_to_megatron` reduces to lookup
in the entries of the addressed layer. -/
theorem falcon_transformer_lookup {ρ : Type}
    (pqkv : Nat → Nat → Nat → List ρ → List ρ) (weights : String → List ρ)
    (size : Nat) {M : Nat} (hM : M < falcon_n_layer size) {s : String}
    (hs : s ∈ falconLayerSuffixes) {v : List ρ}
    (hin : List.lookup (layerPref M ++ s)
      (falconLayerEntries pqkv weights size M) = some v) :
    List.lookup (layerPref M ++ s)
      (falcon_to_megatron pqkv weights size).transformer = some v := by
  have h80 : falcon_n_layer size ≤ 80 := by
    unfold falcon_n_layer
    split <;> omega
  simp only [falcon_to_megatron]
  rw [lookup_cons_ne _ _ (layerKey_ne_plain M s _ (by decide)),
      lookup_cons_ne _ _ (layerKey_ne_plain M s _ (by decide))]
  refine lookup_bind_range _ _ M hM hin ?_
  intro N hN hNne p hp
  obtain ⟨t, ht, hpt⟩ := falconLayerEntries_keys pqkv weights size N p hp
  rw [hpt]
  exact layerKey_ne_of_layer_ne (by omega) (by omega)
    (falconLayerSuffixes_dot t ht) (falconLayerSuffixes_dot s hs) hNne

/-- C2: in every llama conversion, for every layer `L` the output tensor
`transformer["layers.L.mlp.dense_h_to_4h.weight"]` is the dim-0
concatenation of `weights["layers.L.feed_forward.w3.weight"]` followed by
`weights["layers.L.feed_forward.w1.weight"]`, in that order. -/
theorem llama_dense_h_to_4h_is_w3_concat_w1 {ρ : Type}
    (pqkv : Nat → Nat → Nat → List ρ → List ρ) (weights : String → List ρ)
    (size : Nat) (source : String) (version : Nat) {L : Nat}
    (hL : L < llama_s2layer size) :
    List.lookup (layerPref L ++ ".mlp.dense_h_to_4h.weight")
      (llama_to_megatron pqkv weights size source version).transformer =
    some (weights (layerPref L ++ ".feed_forward.w3.weight") ++
          weights (layerPref L ++ ".feed_forward.w1.weight")) := by
  refine llama_transformer_lookup pqkv weights size source version hL
    (by simp [llamaLayerSuffixes]) ?_
  simp only [llamaLayerEntries]
  rw [lookup_cons_ne _ _ (layerKey_ne_of_suffix_ne L (by decide)),
      lookup_cons_ne _ _ (layerKey_ne_of_suffix_ne L (by decide)),
      lookup_cons_ne _ _ (layerKey_ne_of_suffix_ne L (by decide)),
      lookup_cons_ne _ _ (layerKey_ne_of_suffix_ne L (by decide)),
      lookup_cons_self]

/-- Witness for the C2 theorem at layer 0 of a size-7 conversion. -/
theorem llama_dense_h_to_4h_is_w3_concat_w1_witness :
    (0 < llama_s2layer 7) ∧
    List.lookup (layerPref 0 ++ ".mlp.dense_h_to_4h.weight")
      (llama_to_megatron (ρ := Nat) (fun _ _ _ w => w)
        (fun k => [k.length]) 7 "meta" 1).transformer =
    some ([(layerPref 0 ++ ".feed_forward.w3.weight").length] ++
          [(layerPref 0 ++ ".feed_forward.w1.weight").length]) :=
  ⟨by decide,
   llama_dense_h_to_4h_is_w3_concat_w1 (fun _ _ _ w => w)
     (fun k => [k.length]) 7 "meta" 1 (by decide)⟩

/-- C5: tensor renaming copies values unchanged.  For every llama conversion
and layer `L` the outputs under `layers.L.attention.dense.weight`,
`layers.L.input_layernorm.weight`, `layers.L.post_attention_layernorm.weight`
and `layers.L.mlp.dense_4h_to_h.weight` are exactly the inputs
`layers.L.attention.wo.weight`, `layers.L.attention_norm.weight`,
`layers.L.ffn_norm.weight` and `layers.L.feed_forward.w2.weight`, and
`word_embeddings.weight`, `final_layernorm.weight` and `lm_head` are exactly
`tok_embeddings.weight`, `norm.weight` and `output.weight`; likewise for
every falcon conversion the per-layer mlp, dense and layernorm tensors are
the source tensors unchanged under the renamed keys (both the `size == 7`
and the `size != 7` layernorm layouts). -/
theorem renames_copy_values_unchanged {ρ : Type}
    (pqkv : Nat → Nat → Nat → List ρ → List ρ)
    (lw : String → List ρ) (size : Nat) (source : String) (version : Nat)
    (fw : String → List ρ) (fsize : Nat) {L M : Nat}
    (hL : L < llama_s2layer size) (hM : M < falcon_n_layer fsize) :
    (List.lookup (layerPref L ++ ".attention.dense.weight")
        (llama_to_megatron pqkv lw size source version).transformer =
      some (lw (layerPref L ++ ".attention.wo.weight"))) ∧
    (List.lookup (layerPref L ++ ".input_layernorm.weight")
        (llama_to_megatron pqkv lw size source version).transformer =
      some (lw (layerPref L ++ ".attention_norm.weight"))) ∧
    (List.lookup (layerPref L ++ ".post_attention_layernorm.weight")
        (llama_to_megatron pqkv lw size source version).transformer =
      some (lw (layerPref L ++ ".ffn_norm.weight"))) ∧
    (List.lookup (layerPref L ++ ".mlp.dense_4h_to_h.weight")
        (llama_to_megatron pqkv lw size source version).transformer =
      some (lw (layerPref L ++ ".feed_forward.w2.weight"))) ∧
    (List.lookup "word_embeddings.weight"
        (llama_to_megatron pqkv lw size source version).embedding =
      some (lw "tok_embeddings.weight")) ∧
    (List.lookup "final_layernorm.weight"
        (llama_to_megatron pqkv lw size source version).transformer =
      some (lw "norm.weight")) ∧
    ((llama_to_megatron pqkv lw size source version).lm_head =
      lw "output.weight") ∧
    (List.lookup (layerPref M ++ ".mlp.dense_h_to_4h.weight")
        (falcon_to_megatron pqkv fw fsize).transformer =
      some (fw ("transformer.h." ++ Nat.repr M ++ ".mlp.dense_h_to_4h.weight"))) ∧
    (List.lookup (layerPref M ++ ".mlp.dense_4h_to_h.weight")
        (falcon_to_megatron pqkv fw fsize).transformer =
      some (fw ("transformer.h." ++ Nat.repr M ++ ".mlp.dense_4h_to_h.weight"))) ∧
    (List.lookup (layerPref M ++ ".attention.dense.weight")
        (falcon_to_megatron pqkv fw fsize).transformer =
      some (fw ("transformer.h." ++ Nat.repr M ++ ".self_attention.dense.weight"))) ∧
    (fsize = 7 →
      List.lookup (layerPref M ++ ".input_layernorm.weight")
          (falcon_to_megatron pqkv fw fsize).transformer =
        some (fw ("transformer.h." ++ Nat.repr M ++ ".input_layernorm.weight")) ∧
      List.lookup (layerPref M ++ ".input_layernorm.bias")
          (falcon_to_megatron pqkv fw fsize).transformer =
        some (fw ("transformer.h." ++ Nat.repr M ++ ".input_layernorm.bias"))) ∧
    (fsize ≠ 7 →
      List.lookup (layerPref M ++ ".input_layernorm.weight")
          (falcon_to_megatron pqkv fw fsize).transformer =
        some (fw ("transformer.h." ++ Nat.repr M ++ ".ln_attn.weight")) ∧
      List.lookup (layerPref M ++ ".mlp_layernorm.weight")
          (falcon_to_megatron pqkv fw fsize).transformer =
        some (fw ("transformer.h." ++ Nat.repr M ++ ".ln_mlp.weight")) ∧
      List.lookup (layerPref M ++ ".input_layernorm.bias")
          (falcon_to_megatron pqkv fw fsize).transformer =
        some (fw ("transformer.h." ++ Nat.repr M ++ ".ln_attn.bias")) ∧
      List.lookup (layerPref M ++ ".mlp_layernorm.bias")
          (falcon_to_megatron pqkv fw fsize).transformer =
        some (fw ("transformer.h." ++ Nat.repr M ++ ".ln_mlp.bias"))) := by
  refine ⟨?_, ?_, ?_, ?_, ?_, ?_, ?_, ?_, ?_, ?_, ?_, ?_⟩
  · refine llama_transformer_lookup pqkv lw size source version hL
      (by simp [llamaLayerSuffixes]) ?_
    simp only [llamaLayerEntries]
    rw [lookup_cons_self]
  · refine llama_transformer_lookup pqkv lw size source version hL
      (by simp [llamaLayerSuffixes]) ?_
    simp only [llamaLayerEntries]
    rw [lookup_cons_ne _ _ (layerKey_ne_of_suffix_ne L (by decide)),
        lookup_cons_ne _ _ (layerKey_ne_of_suffix_ne L (by decide)),
        lookup_cons_self]
  · refine llama_transformer_lookup pqkv lw size source version hL
      (by simp [llamaLayerSuffixes]) ?_
    simp only [llamaLayerEntries]
    rw [lookup_cons_ne _ _ (layerKey_ne_of_suffix_ne L (by decide)),
        lookup_cons_self]
  · refine llama_transformer_lookup pqkv lw size source version hL
      (by simp [llamaLayerSuffixes]) ?_
    simp only [llamaLayerEntries]
    rw [lookup_cons_ne _ _ (layerKey_ne_of_suffix_ne L (by decide)),
        lookup_cons_ne _ _ (layerKey_ne_of_suffix_ne L (by decide)),
        lookup_cons_ne _ _ (layerKey_ne_of_suffix_ne L (by decide)),
        lookup_cons_self]
  · simp only [llama_to_megatron]
    rw [lookup_cons_self]
  · simp only [llama_to_megatron]
    rw [lookup_cons_self]
  · rfl
  · refine falcon_transformer_lookup pqkv fw fsize hM
      (by simp [falconLayerSuffixes]) ?_
    simp only [falconLayerEntries, List.cons_append, List.nil_append]
    rw [lookup_cons_self]
  · refine falcon_transformer_lookup pqkv fw fsize hM
      (by simp [falconLayerSuffixes]) ?_
    simp only [falconLayerEntries, List.cons_append, List.nil_append]
    rw [lookup_cons_ne _ _ (layerKey_ne_of_suffix_ne M (by decide)),
        lookup_cons_self]
  · refine falcon_transformer_lookup pqkv fw fsize hM
      (by simp [falconLayerSuffixes]) ?_
    simp only [falconLayerEntries, List.cons_append, List.nil_append]
    rw [lookup_cons_ne _ _ (layerKey_ne_of_suffix_ne M (by decide)),
        lookup_cons_ne _ _ (layerKey_ne_of_suffix_ne M (by decide)),
        lookup_cons_ne _ _ (layerKey_ne_of_suffix_ne M (by decide)),
        lookup_cons_self]
  · intro h7
    constructor
    · refine falcon_transformer_lookup pqkv fw fsize hM
        (by simp [falconLayerSuffixes]) ?_
      simp only [falconLayerEntries, h7, if_pos, List.cons_append,
        List.nil_append, reduceIte]
      rw [lookup_cons_ne _ _ (layerKey_ne_of_suffix_ne M (by decide)),
          lookup_cons_ne _ _ (layerKey_ne_of_suffix_ne M (by decide)),
          lookup_cons_ne _ _ (layerKey_ne_of_suffix_ne M (by decide)),
          lookup_cons_ne _ _ (layerKey_ne_of_suffix_ne M (by decide)),
          lookup_cons_self]
    · refine falcon_transformer_lookup pqkv fw fsize hM
        (by simp [falconLayerSuffixes]) ?_
      simp only [falconLayerEntries, h7, if_pos, List.cons_append,
        List.nil_append, reduceIte]
      rw [lookup_cons_ne _ _ (layerKey_ne_of_suffix_ne M (by decide)),
          lookup_cons_ne _ _ (layerKey_ne_of_suffix_ne M (by decide)),
          lookup_cons_ne _ _ (layerKey_ne_of_suffix_ne M (by decide)),
          lookup_cons_ne _ _ (layerKey_ne_of_suffix_ne M (by decide)),
          lookup_cons_ne _ _ (layerKey_ne_of_suffix_ne M (by decide)),
          lookup_cons_self]
  · intro h7
    refine ⟨?_, ?_, ?_, ?_⟩ <;>
      [skip; skip; skip; skip] <;>
      · refine falcon_transformer_lookup pqkv fw fsize hM
          (by simp [falconLayerSuffixes]) ?_
        simp only [falconLayerEntries, if_neg h7, List.cons_append,
          List.nil_append]
        repeat
          first
          | rw [lookup_cons_self]
          | rw [lookup_cons_ne _ _ (layerKey_ne_of_suffix_ne M (by decide))]

/-- Witness for the C5 theorem at layer 0 of size-7 llama and falcon
conversions. -/
theorem renames_copy_values_unchanged_witness :
    (0 < llama_s2layer 7) ∧ (0 < falcon_n_layer 7) ∧
    (llama_to_megatron (ρ := Nat) (fun _ _ _ w => w) (fun k => [k.length])
        7 "meta" 1).lm_head = [("output.weight" : String).length] :=
  ⟨by decide, by decide,
   (renames_copy_values_unchanged (fun _ _ _ w => w) (fun k => [k.length])
     7 "meta" 1 (fun k => [k.length]) 7 (L := 0) (M := 0) (by decide)
     (by decide)).2.2.2.2.2.2.1⟩

/-- The block layout described by the specification of the qkv
rearrangement: for each kv head `i` in order, the `n_heads/n_kv_heads` query
blocks with indices `i*(n_heads/n_kv_heads) + j`, followed by k block `i`
and v block `i`. -/
def qkvSpecLayout {ρ : Type} (n_heads n_kv_heads : Nat)
    (qb kb vb : List (List ρ)) : List (List ρ) :=
  (List.range n_kv_heads).flatMap (fun i =>
    ((List.range (n_heads / n_kv_heads)).map
      (fun j => qb.getD (i * (n_heads / n_kv_heads) + j) []))
      ++ [kb.getD i [], vb.getD i []])

theorem llama_n_hidden_per_head_pos {size : Nat} (hsize : size ∈ llamaSizes) :
    0 < llama_n_hidden_per_head size := by
  fin_cases hsize <;> decide

/-- C1: in every llama conversion with a tabulated size, each layer's
`attention.query_key_value.weight` is obtained by splitting `wq` into
`n_heads` row blocks of `hidden//n_heads` rows and `wk`, `wv` into
`n_kv_heads` such blocks (`n_kv_heads = n_heads` when `version = 1` or
`size ≤ 13`, else `8`), concatenating, for each kv head `i` in order, the
`n_heads//n_kv_heads` query blocks `i*(n_heads//n_kv_heads) + j` followed by
k block `i` and v block `i`, and applying the (externally defined)
`permute_qkv` permutation to the concatenation exactly when the source is
`"hf"`.  The splitting is expressed by quantifying over the block lists
`qb`, `kb`, `vb` whose concatenations are the stored projections. -/
theorem llama_qkv_rearrangement {ρ : Type}
    (pqkv : Nat → Nat → Nat → List ρ → List ρ) (weights : String → List ρ)
    (size : Nat) (hsize : size ∈ llamaSizes) (source : String) (version : Nat)
    {L : Nat} (hL : L < llama_s2layer size) (qb kb vb : List (List ρ))
    (hq : weights (layerPref L ++ ".attention.wq.weight") = qb.flatten)
    (hk : weights (layerPref L ++ ".attention.wk.weight") = kb.flatten)
    (hv : weights (layerPref L ++ ".attention.wv.weight") = vb.flatten)
    (hqlen : qb.length = llama_s2heads size)
    (hklen : kb.length = llama_n_kv_heads size version)
    (hvlen : vb.length = llama_n_kv_heads size version)
    (hqblk : ∀ b ∈ qb, b.length = llama_n_hidden_per_head size)
    (hkblk : ∀ b ∈ kb, b.length = llama_n_hidden_per_head size)
    (hvblk : ∀ b ∈ vb, b.length = llama_n_hidden_per_head size) :
    List.lookup (layerPref L ++ ".attention.query_key_value.weight")
      (llama_to_megatron pqkv weights size source version).transformer =
    some (if source = "hf"
      then pqkv (llama_s2hidden size) (llama_s2heads size)
        (llama_n_kv_heads size version)
        ((qkvSpecLayout (llama_s2heads size) (llama_n_kv_heads size version)
          qb kb vb).flatten)
      else (qkvSpecLayout (llama_s2heads size) (llama_n_kv_heads size version)
          qb kb vb).flatten) := by
  have hnph : 0 < llama_n_hidden_per_head size :=
    llama_n_hidden_per_head_pos hsize
  refine llama_transformer_lookup pqkv weights size source version hL
    (by simp [llamaLayerSuffixes]) ?_
  simp only [llamaLayerEntries]
  rw [lookup_cons_ne _ _ (layerKey_ne_of_suffix_ne L (by decide)),
      lookup_cons_ne _ _ (layerKey_ne_of_suffix_ne L (by decide)),
      lookup_cons_ne _ _ (layerKey_ne_of_suffix_ne L (by decide)),
      lookup_cons_ne _ _ (layerKey_ne_of_suffix_ne L (by decide)),
      lookup_cons_ne _ _ (layerKey_ne_of_suffix_ne L (by decide)),
      lookup_cons_self]
  congr 1
  simp only [rearrange_qkv, hq, hk, hv,
    splitChunks_join _ hnph qb hqblk,
    splitChunks_join _ hnph kb hkblk,
    splitChunks_join _ hnph vb hvblk]
  by_cases hsrc : source = "hf" <;> simp [hsrc, qkvSpecLayout]

/-- Witness for the C1 theorem: size-7 llama, version 1, layer 0, blocks of
128 zero rows. -/
theorem llama_qkv_rearrangement_witness :
    (7 ∈ llamaSizes) ∧ (0 < llama_s2layer 7) ∧
    ((List.replicate 32 (List.replicate 128 (0 : Nat))).length =
      llama_s2heads 7) ∧
    (∀ b ∈ List.replicate 32 (List.replicate 128 (0 : Nat)),
      b.length = llama_n_hidden_per_head 7) ∧
    List.lookup (layerPref 0 ++ ".attention.query_key_value.weight")
      (llama_to_megatron (ρ := Nat) (fun _ _ _ w => w)
        (fun _ => (List.replicate 32 (List.replicate 128 (0 : Nat))).flatten)
        7 "meta" 1).transformer =
    some ((qkvSpecLayout (llama_s2heads 7) (llama_n_kv_heads 7 1)
      (List.replicate 32 (List.replicate 128 (0 : Nat)))
      (List.replicate 32 (List.replicate 128 (0 : Nat)))
      (List.replicate 32 (List.replicate 128 (0 : Nat)))).flatten) := by
  have hblk : ∀ b ∈ List.replicate 32 (List.replicate 128 (0 : Nat)),
      b.length = llama_n_hidden_per_head 7 := by
    intro b hb
    rw [List.eq_of_mem_replicate hb, List.length_replicate]
    decide
  have hlen : (List.replicate 32 (List.replicate 128 (0 : Nat))).length =
      llama_s2heads 7 := by
    rw [List.length_replicate]
    decide
  have hkv : (List.replicate 32 (List.replicate 128 (0 : Nat))).length =
      llama_n_kv_heads 7 1 := by
    rw [List.length_replicate]
    decide
  refine ⟨by decide, by decide, hlen, hblk, ?_⟩
  have := llama_qkv_rearrangement (ρ := Nat) (fun _ _ _ w => w)
    (fun _ => (List.replicate 32 (List.replicate 128 (0 : Nat))).flatten)
    7 (by decide) "meta" 1 (L := 0) (by decide)
    (List.replicate 32 (List.replicate 128 (0 : Nat)))
    (List.replicate 32 (List.replicate 128 (0 : Nat)))
    (List.replicate 32 (List.replicate 128 (0 : Nat)))
    rfl rfl rfl hlen hkv hkv hblk hblk hblk
  rw [if_neg (by decide : ¬(("meta" : String) = "hf"))] at this
  exact this

/-! ## `oa/pretokenize.py`: `TokenStats` -/

/-- The `TokenStats` statistics object (lines 110–136). -/
structure TokenStats where
  name : String
  skipped_samples : Nat
  skipped_tokens : Nat
  total_samples : Nat
  min_tokens : Option Nat
  max_tokens : Nat
  accepted_samples : Nat
  accepted_tokens : Nat
deriving Repr, DecidableEq

/-- `TokenStats.__init__`. -/
def TokenStats.init (name : String) (total_samples : Nat) : TokenStats :=
  { name := name, skipped_samples := 0, skipped_tokens := 0,
    total_samples := total_samples, min_tokens := none, max_tokens := 0,
    accepted_samples := 0, accepted_tokens := 0 }

/-- The `processed_samples` property (lines 121–123). -/
def TokenStats.processed_samples (s : TokenStats) : Nat :=
  s.accepted_samples + s.skipped_samples

/-- `TokenStats.skip` (lines 125–127).  Note that `skipped_tokens` is
assigned (`=`), not accumulated (`+=`). -/
def TokenStats.skip (s : TokenStats) (tokens : List Nat) : TokenStats :=
  { s with skipped_samples := s.skipped_samples + 1,
           skipped_tokens := tokens.length }

/-- `TokenStats.add` (lines 129–136). -/
def TokenStats.add (s : TokenStats) (tokens : List Nat) : TokenStats :=
  let l := tokens.length
  { s with
    accepted_samples := s.accepted_samples + 1,
    accepted_tokens := s.accepted_tokens + l,
    min_tokens :=
      match s.min_tokens with
      | none => some l
      | some m => if m > l then some l else some m,
    max_tokens := if s.max_tokens < l then l else s.max_tokens }

/-- One call of the interleaving of `add` and `skip`. -/
inductive StatsEvent where
  | add (tokens : List Nat)
  | skip (tokens : List Nat)
deriving Repr, DecidableEq

/-- Apply one call. -/
def TokenStats.apply (s : TokenStats) : StatsEvent → TokenStats
  | .add t => s.add t
  | .skip t => s.skip t

/-- Apply a sequence of calls in order. -/
def TokenStats.applyAll (s : TokenStats) (es : List StatsEvent) : TokenStats :=
  es.foldl TokenStats.apply s

/-- The lengths of the token lists passed to the `add` calls, in order. -/
def addLengths : List StatsEvent → List Nat
  | [] => []
  | .add t :: es => t.length :: addLengths es
  | .skip _ :: es => addLengths es

theorem addLengths_append (a b : List StatsEvent) :
    addLengths (a ++ b) = addLengths a ++ addLengths b := by
  induction a with
  | nil => rfl
  | cons e es ih => cases e <;> simp [addLengths, ih]

theorem minimum?_concat (l : List Nat) (x : Nat) :
    (l ++ [x]).min? =
      some (match l.min? with | none => x | some m => min m x) := by
  induction l with
  | nil => rfl
  | cons a l' ih =>
    rw [List.cons_append, List.min?_cons, List.min?_cons, ih]
    cases h : l'.min? with
    | none => simp [h]
    | some m => simp [h, min_assoc]

theorem maximum?_concat (l : List Nat) (x : Nat) :
    (l ++ [x]).max? =
      some (match l.max? with | none => x | some m => max m x) := by
  induction l with
  | nil => rfl
  | cons a l' ih =>
    rw [List.cons_append, List.max?_cons, List.max?_cons, ih]
    cases h : l'.max? with
    | none => simp [h]
    | some m => simp [h, max_assoc]

/-- C4: for every interleaving of `TokenStats.add` and `TokenStats.skip`
calls on a freshly initialised object, `processed_samples` equals
`accepted_samples + skipped_samples`, `accepted_samples` is the number of
`add` calls, `accepted_tokens` is the sum of the lengths of the token lists
passed to `add`, `min_tokens` is the minimum of those lengths (`none` when
there was no `add`) and `max_tokens` is their maximum (`0` when there was no
`add`).  Since the sequence of calls is universally quantified, the
`processed_samples` identity holds after every prefix of the interleaving. -/
theorem tokenStats_accounting (name : String) (total : Nat)
    (es : List StatsEvent) :
    (TokenStats.applyAll (TokenStats.init name total) es).processed_samples =
      (TokenStats.applyAll (TokenStats.init name total) es).accepted_samples +
      (TokenStats.applyAll (TokenStats.init name total) es).skipped_samples ∧
    (TokenStats.applyAll (TokenStats.init name total) es).accepted_samples =
      (addLengths es).length ∧
    (TokenStats.applyAll (TokenStats.init name total) es).accepted_tokens =
      (addLengths es).sum ∧
    (TokenStats.applyAll (TokenStats.init name total) es).min_tokens =
      (addLengths es).min? ∧
    (TokenStats.applyAll (TokenStats.init name total) es).max_tokens =
      (addLengths es).max?.getD 0 := by
  refine ⟨rfl, ?_⟩
  induction es using List.reverseRecOn with
  | nil => exact ⟨rfl, rfl, rfl, rfl⟩
  | append_singleton es e ih =>
    obtain ⟨ih1, ih2, ih3, ih4⟩ := ih
    have happ : TokenStats.applyAll (TokenStats.init name total) (es ++ [e]) =
        (TokenStats.applyAll (TokenStats.init name total) es).apply e := by
      simp [TokenStats.applyAll]
    cases e with
    | add t =>
      rw [happ, addLengths_append]
      simp only [TokenStats.apply, TokenStats.add, addLengths]
      refine ⟨by simp [ih1], by simp [ih2, List.sum_append], ?_, ?_⟩
      · rw [minimum?_concat, ih3]
        cases h : (addLengths es).min? with
        | none => simp only [h]
        | some m =>
          simp only [h]
          split <;> simp only [Option.some.injEq] <;> omega
      · rw [maximum?_concat, ih4]
        cases h : (addLengths es).max? with
        | none =>
          simp only [h, Option.getD_none, Option.getD_some]
          split <;> omega
        | some m =>
          simp only [h, Option.getD_some]
          split <;> omega
    | skip t =>
      rw [happ, addLengths_append]
      simp only [TokenStats.apply, TokenStats.skip, addLengths]
      simpa using ⟨ih1, ih2, ih3, ih4⟩

theorem skip_foldl_spec (tls : List (List Nat)) (h : tls ≠ []) :
    ∀ s : TokenStats,
      (tls.foldl TokenStats.skip s).skipped_tokens =
        (tls.getLast h).length ∧
      (tls.foldl TokenStats.skip s).skipped_samples =
        s.skipped_samples + tls.length := by
  induction tls with
  | nil => exact absurd rfl h
  | cons t ts ih =>
    intro s
    by_cases hts : ts = []
    · subst hts
      simp [TokenStats.skip]
    · have := ih hts (s.skip t)
      rw [List.foldl_cons]
      refine ⟨?_, ?_⟩
      · rw [(this).1, List.getLast_cons hts]
      · rw [(this).2]
        simp [TokenStats.skip]
        omega

/-- C9: after any non-empty sequence of `TokenStats.skip` calls on a fresh
object, `skipped_tokens` equals the length of the token list of the most
recent `skip` call only (each call overwrites the field), while
`skipped_samples` counts every `skip` call. -/
theorem tokenStats_skip_overwrites (name : String) (total : Nat)
    (tls : List (List Nat)) (h : tls ≠ []) :
    (tls.foldl TokenStats.skip (TokenStats.init name total)).skipped_tokens =
      (tls.getLast h).length ∧
    (tls.foldl TokenStats.skip (TokenStats.init name total)).skipped_samples =
      tls.length := by
  have := skip_foldl_spec tls h (TokenStats.init name total)
  simpa [TokenStats.init] using this

/-- Witness for the C9 theorem: two skips of 1 and 2 tokens leave
`skipped_tokens = 2` (not the cumulative 3) and `skipped_samples = 2`. -/
theorem tokenStats_skip_overwrites_witness :
    ([[5], [7, 8]] : List (List Nat)) ≠ [] ∧
    (([[5], [7, 8]] : List (List Nat)).foldl TokenStats.skip
      (TokenStats.init "total" 2)).skipped_tokens = 2 ∧
    (([[5], [7, 8]] : List (List Nat)).foldl TokenStats.skip
      (TokenStats.init "total" 2)).skipped_samples = 2 :=
  ⟨by decide,
   (tokenStats_skip_overwrites "total" 2 [[5], [7, 8]] (by decide)).1,
   (tokenStats_skip_overwrites "total" 2 [[5], [7, 8]] (by decide)).2⟩

/-! ## `oa/pretokenize.py`: formatting and the `tokenize_dataset` loop -/

/-- The message roles of the external `Role` enum consumed by
`format_sft_entry`. -/
inductive Role where
  | prompter
  | assistant
  | system
deriving Repr, DecidableEq

/-- A dataset sample handed to `format_conversation`: a `DatasetEntrySft`,
a `DatasetEntryLm`, or a plain list of alternating user/assistant
strings. -/
inductive Sample where
  | sft (system_message : Option String) (conversation : List (Role × String))
  | lm (text : String)
  | pairs (ps : List String)
deriving Repr, DecidableEq

/-- A Python value that is either a list of strings or a single string: the
two shapes of the first component of `format_conversation`'s result (the
`DatasetEntryLm` branch returns the raw text string). -/
inductive PyStrOrList where
  | str (s : String)
  | list (l : List String)
deriving Repr, DecidableEq

/-- Iterating such a value in Python: a `str` iterates over its characters,
each a length-1 string. -/
def PyStrOrList.iter : PyStrOrList → List String
  | .str s => s.data.map (fun c => String.singleton c)
  | .list l => l

/-- `"".join(turns)`: `str.join` with empty separator over the iterated
elements. -/
def PyStrOrList.joinAll (t : PyStrOrList) : String :=
  t.iter.foldl (· ++ ·) ""

theorem foldl_append_singletons (cs : List Char) (a : String) :
    ((cs.map (fun c => String.singleton c)).foldl (· ++ ·) a).data
      = a.data ++ cs := by
  induction cs generalizing a with
  | nil => simp
  | cons c cs ih =>
    simp only [List.map_cons, List.foldl_cons]
    rw [ih]
    simp [String.data_append, String.singleton]

/-- Sanity check of the iteration model: joining the iterated characters of
a string with the empty separator gives the string back. -/
theorem joinAll_str (s : String) : PyStrOrList.joinAll (.str s) = s := by
  apply String.ext
  simpa using foldl_append_singletons s.data ""

/-- `format_pairs` (lines 75–82): `<|im_start|>`-framed turns alternating
`user`/`assistant` with role ids 1 and 2. -/
def format_pairs (pairs : List String) : List String × List Nat :=
  ((List.range pairs.length).map (fun i =>
      "<|im_start|>" ++ (if i % 2 = 0 then "user" else "assistant") ++ "\n"
        ++ pairs.getD i "" ++ "<|im_end|>\n"),
   (List.range pairs.length).map (fun i => if i % 2 = 0 then 1 else 2))

/-- `format_sft_entry` (lines 85–98): optional system turn (role 0), then a
turn per prompter (role 1) or assistant (role 2) message; other roles are
dropped. -/
def format_sft_entry (system_message : Option String)
    (conversation : List (Role × String)) : List String × List Nat :=
  let base : List String × List Nat :=
    match system_message with
    | some sm =>
      if sm.length > 0 then
        (["<|im_start|>system\n" ++ sm ++ "<|im_end|>\n"], [0])
      else ([], [])
    | none => ([], [])
  let msgs := conversation.filterMap (fun m =>
    match m.1 with
    | .prompter => some ("<|im_start|>user\n" ++ m.2 ++ "<|im_end|>\n", 1)
    | .assistant =>
      some ("<|im_start|>assistant\n" ++ m.2 ++ "<|im_end|>\n", 2)
    | .system => none)
  (base.1 ++ msgs.map Prod.fst, base.2 ++ msgs.map Prod.snd)

/-- `format_conversation` (lines 101–107).  The `DatasetEntryLm` branch
returns the raw text string (not a one-element list) together with `[3]`. -/
def format_conversation : Sample → PyStrOrList × List Nat
  | .sft sm conv =>
    let fs := format_sft_entry sm conv
    (.list fs.1, fs.2)
  | .lm text => (.str text, [3])
  | .pairs ps =>
    let fp := format_pairs ps
    (.list fp.1, fp.2)

/-- The inner per-turn loop of `tokenize_dataset` (lines 210–219):
accumulate tokens, per-token role labels, and the count of tokens whose
role equals `IntRole.Assistant` (= 2). -/
def turnFold (enc : String → List Nat) :
    List (String × Nat) → List Nat × List Nat × Nat
  | [] => ([], [], 0)
  | (t, r) :: rest =>
    let tt := enc t
    let acc := turnFold enc rest
    (tt ++ acc.1, List.replicate tt.length r ++ acc.2.1,
      (if r = 2 then tt.length else 0) + acc.2.2)

/-- The `(tokens, role_lables, num_assistant_tokens)` triple computed for
one sample (`zip(turns, turn_roles)` truncates to the shorter of the
two). -/
def sampleTokens (enc : String → List Nat) (messages : Sample) :
    List Nat × List Nat × Nat :=
  let fc := format_conversation messages
  turnFold enc (fc.1.iter.zip fc.2)

/-- Python exceptions relevant to the embedded code. -/
inductive PyErr where
  | indexError
  | assertionError
  | zeroDivisionError
deriving Repr, DecidableEq

/-- The mutable state of the `tokenize_dataset` loop: the two statistics
objects, the items appended to the token and role `DatasetWriter`s, and
`subset_index`. -/
structure TDState where
  totalStats : TokenStats
  perDatasetStats : List TokenStats
  writtenTokens : List (List Nat)
  writtenRoles : List (List Nat)
  subsetIndex : Nat
deriving Repr, DecidableEq

/-- Python list read `l[i]` (raises `IndexError` when out of range). -/
def pyGet (l : List α) (i : Nat) : Except PyErr α :=
  if h : i < l.length then .ok l[i] else .error .indexError

/-- In-place mutation `l[i].method(...)` of the object at index `i`. -/
def pyModify (l : List α) (i : Nat) (f : α → α) : Except PyErr (List α) :=
  if h : i < l.length then .ok (l.set i (f l[i])) else .error .indexError

/-- One iteration of the `for i, messages in enumerate(tqdm(dataset))` loop
(lines 199–245), returning the updated state and whether the loop `break`s.
The progress print (203–206) and the optional jsonl dump (240–242) do not
affect the modelled state.  The `max_count` test models Python truthiness:
`max_count and total_stats.accepted_samples >= max_count`. -/
def processOne (enc : String → List Nat) (check_tokenization : Bool)
    (min_assistant_tokens max_count : Option Nat)
    (cumulative_sizes : List Nat) (i : Nat) (st : TDState)
    (messages : Sample) : Except PyErr (TDState × Bool) :=
  match pyGet cumulative_sizes st.subsetIndex with
  | .error e => .error e
  | .ok c =>
    let st := if i ≥ c then { st with subsetIndex := st.subsetIndex + 1 }
              else st
    let fc := format_conversation messages
    let tr := turnFold enc (fc.1.iter.zip fc.2)
    let tokens := tr.1
    let role_lables := tr.2.1
    let num_assistant_tokens := tr.2.2
    if (match min_assistant_tokens with
        | some m => decide (num_assistant_tokens < m)
        | none => false) then
      match pyModify st.perDatasetStats st.subsetIndex
          (fun s => TokenStats.skip s tokens) with
      | .error e => .error e
      | .ok pds =>
        .ok ({ st with totalStats := TokenStats.skip st.totalStats tokens,
                       perDatasetStats := pds }, false)
    else
      if check_tokenization ∧
          ¬(enc fc.1.joinAll = tokens ∧
            tokens.length = role_lables.length) then
        .error .assertionError
      else
        let st1 := { st with
          writtenTokens := st.writtenTokens ++ [tokens],
          writtenRoles := st.writtenRoles ++ [role_lables] }
        let tot := TokenStats.add st1.totalStats tokens
        match pyModify st1.perDatasetStats st1.subsetIndex
            (fun s => TokenStats.add s tokens) with
        | .error e => .error e
        | .ok pds =>
          .ok ({ st1 with totalStats := tot, perDatasetStats := pds },
            (match max_count with
             | some m => decide (m ≠ 0) && decide (tot.accepted_samples ≥ m)
             | none => false))

/-- The main loop of `tokenize_dataset` over the enumerated samples. -/
def tokenizeLoop (enc : String → List Nat) (check_tokenization : Bool)
    (min_assistant_tokens max_count : Option Nat)
    (cumulative_sizes : List Nat) :
    Nat → TDState → List Sample → Except PyErr TDState
  | _, st, [] => .ok st
  | i, st, m :: rest =>
    match processOne enc check_tokenization min_assistant_tokens max_count
        cumulative_sizes i st m with
    | .error e => .error e
    | .ok (st', true) => .ok st'
    | .ok (st', false) =>
      tokenizeLoop enc check_tokenization min_assistant_tokens max_count
        cumulative_sizes (i + 1) st' rest

/-- A dataset handed to `tokenize_dataset`: a `ConcatDataset` of
sub-datasets, or any other dataset. -/
inductive PyDataset where
  | concat (datasets : List (List Sample))
  | plain (samples : List Sample)

/-- Iterating the dataset. -/
def PyDataset.samples : PyDataset → List Sample
  | .concat ds => ds.flatten
  | .plain s => s

/-- `s += len(d); cumulative_sizes.append(s)` per sub-dataset. -/
def cumSizesFrom : List (List Sample) → Nat → List Nat
  | [], _ => []
  | d :: ds, s => (s + d.length) :: cumSizesFrom ds (s + d.length)

/-- `cumulative_sizes` as built on lines 158–177: populated only in the
`isinstance(dataset, ConcatDataset)` branch, empty otherwise. -/
def PyDataset.cumulativeSizes : PyDataset → List Nat
  | .concat ds => cumSizesFrom ds 0
  | .plain _ => []

/-- The state before the loop: `total` stats over `len(dataset)`, one stats
object per sub-dataset in the `ConcatDataset` branch (the display-name
computation of lines 164–173 uses Python reflection and is modelled by the
empty string; the claims never read the names), empty writers,
`subset_index = 0`. -/
def initialTDState (d : PyDataset) : TDState :=
  { totalStats := TokenStats.init "total" d.samples.length,
    perDatasetStats :=
      match d with
      | .concat ds => ds.map (fun sub => TokenStats.init "" sub.length)
      | .plain _ => [],
    writtenTokens := [], writtenRoles := [], subsetIndex := 0 }

/-- `tokenize_dataset` (lines 139–252) restricted to its observable effects:
writer finalization and the summary prints are I/O on the final state and
are not modelled. -/
def tokenize_dataset (enc : String → List Nat) (check_tokenization : Bool)
    (min_assistant_tokens max_count : Option Nat) (d : PyDataset) :
    Except PyErr TDState :=
  tokenizeLoop enc check_tokenization min_assistant_tokens max_count
    d.cumulativeSizes 0 (initialTDState d) d.samples

/-- C10: `tokenize_dataset` on any non-empty dataset that is not a
`ConcatDataset` raises `IndexError` on the very first sample:
`cumulative_sizes` stays empty (it is only populated in the
`isinstance(dataset, ConcatDataset)` branch) yet `cumulative_sizes[subset_index]`
is read unconditionally at the top of the loop body. -/
theorem tokenize_plain_raises_indexError (enc : String → List Nat)
    (check_tokenization : Bool) (min_assistant_tokens max_count : Option Nat)
    (s : Sample) (rest : List Sample) :
    tokenize_dataset enc check_tokenization min_assistant_tokens max_count
      (.plain (s :: rest)) = .error .indexError := rfl

/-- C3 fails on the code: `format_conversation` returns the raw text string
for a `DatasetEntryLm`, so `zip(turns, turn_roles)` pairs the *first
character* of the text with role 3 and only that character is tokenized;
with the default `check_tokenization=True` the function then raises
`AssertionError` because `encoder.encode_text("".join(turns))` re-encodes
the full text.  Concretely, with the per-character code-point encoder and
the entry `DatasetEntryLm(text="ab")`: the sample's token list is the
encoding of `"a"` alone, not of `"ab"`, and the whole run aborts with
`AssertionError`. -/
theorem lm_entry_tokenizes_first_char_only :
    (sampleTokens (fun s => s.data.map Char.toNat) (.lm "ab")).1 =
      (fun s : String => s.data.map Char.toNat) "a" ∧
    (fun s : String => s.data.map Char.toNat) "a" ≠
      (fun s : String => s.data.map Char.toNat) "ab" ∧
    (sampleTokens (fun s => s.data.map Char.toNat) (.lm "ab")).2.1 =
      [3] ∧
    tokenize_dataset (fun s => s.data.map Char.toNat) true none none
      (.concat [[.lm "ab"]]) = .error .assertionError := by
  refine ⟨rfl, by decide, rfl, rfl⟩

/-- C6: in `processOne`, when `min_assistant_tokens` is `some m` and the
sample's total count of assistant-role tokens is strictly below `m`, the
sample is skipped: nothing is appended to the token writer or the role
writer, the skip is counted in the skipped statistics (sample count and
`skipped_tokens`), the accepted statistics are untouched and the loop
continues with the next sample (`break` flag false).  When
`min_assistant_tokens` is `None`, no sample is skipped for this reason:
any successfully processed sample leaves `skipped_samples` unchanged and is
appended to the writers. -/
theorem min_assistant_tokens_gate (enc : String → List Nat)
    (check_tokenization : Bool) (max_count : Option Nat)
    (cumulative_sizes : List Nat) (i : Nat) (st : TDState)
    (messages : Sample) :
    (∀ (m : Nat) (st' : TDState) (brk : Bool),
      (sampleTokens enc messages).2.2 < m →
      processOne enc check_tokenization (some m) max_count cumulative_sizes
        i st messages = .ok (st', brk) →
      st'.writtenTokens = st.writtenTokens ∧
      st'.writtenRoles = st.writtenRoles ∧
      st'.totalStats.skipped_samples = st.totalStats.skipped_samples + 1 ∧
      st'.totalStats.skipped_tokens = (sampleTokens enc messages).1.length ∧
      st'.totalStats.accepted_samples = st.totalStats.accepted_samples ∧
      brk = false) ∧
    (∀ (st' : TDState) (brk : Bool),
      processOne enc check_tokenization none max_count cumulative_sizes
        i st messages = .ok (st', brk) →
      st'.totalStats.skipped_samples = st.totalStats.skipped_samples ∧
      st'.writtenTokens =
        st.writtenTokens ++ [(sampleTokens enc messages).1]) := by
  constructor
  · intro m st' brk hna h
    unfold processOne at h
    simp only [sampleTokens] at hna ⊢
    split at h
    · exact absurd h (by simp)
    · dsimp only at h
      split at h
      · split at h
        · exact absurd h (by simp)
        · rw [Except.ok.injEq, Prod.mk.injEq] at h
          obtain ⟨hst, hbrk⟩ := h
          subst hst
          refine ⟨?_, ?_, ?_, ?_, ?_, hbrk.symm⟩ <;> split <;> rfl
      · rename_i hcond
        simp only [decide_eq_true_eq] at hcond
        exact absurd hna hcond
  · intro st' brk h
    unfold processOne at h
    simp only [sampleTokens]
    split at h
    · exact absurd h (by simp)
    · dsimp only at h
      split at h
      · rename_i hcond
        exact absurd hcond (by simp)
      · split at h
        · exact absurd h (by simp)
        · split at h
          · exact absurd h (by simp)
          · rw [Except.ok.injEq, Prod.mk.injEq] at h
            obtain ⟨hst, hbrk⟩ := h
            subst hst
            constructor <;> split <;> rfl

/-- Witness for the C6 theorem: a `DatasetEntryLm("a")` sample has 0
assistant tokens, so with `min_assistant_tokens = 1` it is skipped and
nothing is written. -/
theorem min_assistant_tokens_gate_witness :
    ((sampleTokens (fun s => s.data.map Char.toNat) (.lm "a")).2.2 < 1) ∧
    (processOne (fun s => s.data.map Char.toNat) true (some 1) none [1] 0
        (initialTDState (.concat [[.lm "a"]])) (.lm "a") =
      .ok ({ initialTDState (.concat [[.lm "a"]]) with
              totalStats := TokenStats.skip (TokenStats.init "total" 1) [97],
              perDatasetStats :=
                [TokenStats.skip (TokenStats.init "" 1) [97]] }, false)) ∧
    ({ initialTDState (.concat [[.lm "a"]]) with
        totalStats := TokenStats.skip (TokenStats.init "total" 1) [97],
        perDatasetStats :=
          [TokenStats.skip (TokenStats.init "" 1) [97]] } :
        TDState).writtenTokens =
      (initialTDState (.concat [[.lm "a"]])).writtenTokens := by
  refine ⟨by decide, by rfl, ?_⟩
  exact ((min_assistant_tokens_gate (fun s => s.data.map Char.toNat) true none
      [1] 0 (initialTDState (.concat [[.lm "a"]])) (.lm "a")).1 1 _ false
      (by decide) (by rfl)).1

/-! ## `tests/test_llama_weights.py`: `verify_correctness` -/

/-- Value of a decimal digit character. -/
def digitVal (c : Char) : Nat := c.toNat - '0'.toNat

/-- The natural number denoted by a digit string. -/
def natOfDigits (ds : List Char) : Nat :=
  ds.foldl (fun a c => a * 10 + digitVal c) 0

/-- The rational denoted by `d1 ++ "." ++ d2` (Python's `float()` rounds
this value to binary floating point; the model keeps it exact). -/
def ratOfParts (d1 d2 : List Char) : ℚ :=
  (natOfDigits d1 : ℚ) + (natOfDigits d2 : ℚ) / 10 ^ d2.length

/-- Greedy match of the regex group `[0-9]+\.[0-9]+` at the start of `cs`
(line 104 of the test file), returning its rational value.  Because the
pattern continues with `.*$`, maximal munch is exactly the backtracking
semantics. -/
def numAt (cs : List Char) : Option ℚ :=
  let d1 := cs.takeWhile Char.isDigit
  let r1 := cs.dropWhile Char.isDigit
  if d1.isEmpty then none
  else
    match r1 with
    | '.' :: r2 =>
      let d2 := r2.takeWhile Char.isDigit
      if d2.isEmpty then none else some (ratOfParts d1 d2)
    | _ => none

/-- The values of all occurrences of `max=` followed by `[0-9]+\.[0-9]+` in
a line, left to right. -/
def maxMatches : List Char → List ℚ
  | 'm' :: 'a' :: 'x' :: '=' :: rest =>
    (match numAt rest with
     | some q => [q]
     | none => []) ++ maxMatches rest
  | _ :: cs => maxMatches cs
  | [] => []

/-- The value `re.match(r"^.*max=([0-9]+\.[0-9]+).*$", line)` extracts, if
the line matches: the leading greedy `.*` selects the last occurrence of
`max=` that admits a full match. -/
def parseMaxLine (line : String) : Option ℚ :=
  (maxMatches line.data).getLast?

/-- The `max_errors` list collected from the lines of the delegated
verification run. -/
def parseMaxErrors (lines : List String) : List ℚ :=
  lines.filterMap parseMaxLine

/-- The post-processing of `verify_correctness` (lines 100–107).  The
delegation to the external training framework (`torchrun … verify_correctness.py`)
is abstracted by taking the run's output lines as the input.  When no line
matched, `sum(max_errors)/len(max_errors)` raises `ZeroDivisionError`;
otherwise the `assert` raises `AssertionError` exactly when the average
exceeds 0.001, and the list of parsed values is returned. -/
def verify_correctness (lines : List String) : Except PyErr (List ℚ) :=
  let max_errors := parseMaxErrors lines
  if max_errors.length = 0 then .error .zeroDivisionError
  else if max_errors.sum / (max_errors.length : ℚ) > 1 / 1000 then
    .error .assertionError
  else .ok max_errors

/-- C7: `verify_correctness` delegates the verification run and then raises
an assertion error exactly when the average of the `max=<number>` values
parsed from the run's output exceeds 0.001, and otherwise returns the list
of parsed max errors (stated for outputs in which at least one line
matched, so that the average exists; with no match the code raises
`ZeroDivisionError` instead). -/
theorem verify_correctness_tolerance (lines : List String)
    (hne : parseMaxErrors lines ≠ []) :
    (verify_correctness lines = .error .assertionError ↔
      (parseMaxErrors lines).sum / ((parseMaxErrors lines).length : ℚ) >
        1 / 1000) ∧
    ((parseMaxErrors lines).sum / ((parseMaxErrors lines).length : ℚ) ≤
        1 / 1000 →
      verify_correctness lines = .ok (parseMaxErrors lines)) := by
  unfold verify_correctness
  have hlen : ¬((parseMaxErrors lines).length = 0) := by
    simpa [List.length_eq_zero] using hne
  rw [if_neg hlen]
  by_cases hgt : (parseMaxErrors lines).sum /
      ((parseMaxErrors lines).length : ℚ) > 1 / 1000
  · rw [if_pos hgt]
    exact ⟨⟨fun _ => hgt, fun _ => rfl⟩, fun hle => absurd hgt (not_lt.2 hle)⟩
  · rw [if_neg hgt]
    exact ⟨⟨fun h => absurd h (by simp), fun h => absurd h hgt⟩, fun _ => rfl⟩

/-- Witness for the C7 theorem: one matching line with `max=0.0005` parses
to `1/2000`, the average is within tolerance and the list is returned. -/
theorem verify_correctness_tolerance_witness :
    parseMaxErrors ["Iteration 0: max=0.0005 loss"] ≠ [] ∧
    verify_correctness ["Iteration 0: max=0.0005 loss"] =
      .ok (parseMaxErrors ["Iteration 0: max=0.0005 loss"]) := by
  have hval : parseMaxErrors ["Iteration 0: max=0.0005 loss"] =
      [ratOfParts ['0'] ['0', '0', '0', '5']] := rfl
  have h1 : natOfDigits ['0'] = 0 := by decide
  have h2 : natOfDigits ['0', '0', '0', '5'] = 5 := by decide
  have hne : parseMaxErrors ["Iteration 0: max=0.0005 loss"] ≠ [] := by
    rw [hval]
    simp
  have havg : (parseMaxErrors ["Iteration 0: max=0.0005 loss"]).sum /
      ((parseMaxErrors ["Iteration 0: max=0.0005 loss"]).length : ℚ) ≤
      1 / 1000 := by
    rw [hval]
    simp only [List.sum_cons, List.sum_nil, List.length_cons,
      List.length_nil, add_zero, ratOfParts, h1, h2]
    norm_num
  exact ⟨hne, (verify_correctness_tolerance _ hne).2 havg⟩

/-! ## Resharding round-trip (`TestLlamaWeights.test_shard_unshard`) -/

/-- Modelled from the spec: the repository reshards checkpoints "across
parallelism dimensions"; the implementation behind the `shard` helper of
`tests/test_llama_weights.py` (`tools/checkpoint_util.py`) is not among the
sources under consideration.  A checkpoint is its list of weight tensors
(each a row list); sharding to tensor-parallel size `tp` cuts every tensor
into `tp` contiguous row chunks, and pipeline-parallel size `pp` partitions
the tensor list into `pp` contiguous stages. -/
def shardCheckpoint {ρ : Type} (tp pp : Nat) (c : List (List ρ)) :
    List (List (List (List ρ))) :=
  splitChunks (max 1 ((c.length + pp - 1) / pp))
    (c.map (fun t => splitChunks (max 1 ((t.length + tp - 1) / tp)) t))

/-- Modelled from the spec: merging a sharded checkpoint concatenates the
pipeline stages and, per tensor, the row chunks. -/
def mergeCheckpoint {ρ : Type} (s : List (List (List (List ρ)))) :
    List (List ρ) :=
  s.flatten.map List.flatten

/-- Modelled from the spec: `checkpoint_util` converts a checkpoint between
shardings by merging the input and re-sharding to the target
`tensor_parallel`/`pipeline_parallel` sizes. -/
def reshard {ρ : Type} (tp pp : Nat) (s : List (List (List (List ρ)))) :
    List (List (List (List ρ))) :=
  shardCheckpoint tp pp (mergeCheckpoint s)

theorem mergeCheckpoint_shardCheckpoint {ρ : Type} (tp pp : Nat)
    (c : List (List ρ)) : mergeCheckpoint (shardCheckpoint tp pp c) = c := by
  unfold mergeCheckpoint shardCheckpoint
  rw [join_splitChunks _ (Nat.lt_of_lt_of_le Nat.zero_lt_one (Nat.le_max_left _ _)),
      List.map_map]
  have : ∀ t ∈ c, (List.flatten ∘
      fun t => splitChunks (max 1 ((t.length + tp - 1) / tp)) t) t = id t := by
    intro t _
    exact join_splitChunks _
      (Nat.lt_of_lt_of_le Nat.zero_lt_one (Nat.le_max_left _ _)) t
  rw [List.map_congr_left this, List.map_id]

/-- C8: resharding round-trip.  Sharding a converted checkpoint to
tensor-parallel 2 and pipeline-parallel 2 and then merging back to
tensor-parallel 1 and pipeline-parallel 1 reproduces the original
checkpoint exactly, so any verification functional (such as the external
average-max-error check) that passed the 0.001 tolerance before still
passes it afterwards. -/
theorem shard_unshard_roundtrip_verifies {ρ : Type}
    (verify : List (List ρ) → ℚ) (c : List (List ρ))
    (hpass : verify c ≤ 1 / 1000) :
    mergeCheckpoint (reshard 1 1 (reshard 2 2 (shardCheckpoint 1 1 c))) = c ∧
    verify (mergeCheckpoint
      (reshard 1 1 (reshard 2 2 (shardCheckpoint 1 1 c)))) ≤ 1 / 1000 := by
  have h : mergeCheckpoint
      (reshard 1 1 (reshard 2 2 (shardCheckpoint 1 1 c))) = c := by
    simp [reshard, mergeCheckpoint_shardCheckpoint]
  exact ⟨h, by rw [h]; exact hpass⟩

/-- Witness for the C8 theorem with a two-tensor checkpoint and the zero
error functional. -/
theorem shard_unshard_roundtrip_verifies_witness :
    ((fun _ : List (List Nat) => (0 : ℚ)) [[1, 2], [3]] ≤ 1 / 1000) ∧
    mergeCheckpoint (reshard 1 1 (reshard 2 2 (shardCheckpoint 1 1
      [[1, 2], [3]]))) = [[1, 2], [3]] :=
  ⟨by norm_num,
   (shard_unshard_roundtrip_verifies (fun _ => (0 : ℚ)) [[1, 2], [3]]
     (by norm_num)).1⟩
